import Mathlib

/-!
Shallow embedding of the freeform-wire-bender program (src/biplane2.py).

Geometry (the bent-wire path walk, `BendWire` construction and `simplify`)
is modelled over the real numbers: every float of the source becomes an
exact real, and the two-axis intrinsic Euler rotations of
`scipy.spatial.transform.Rotation.from_euler('ZY', ..., degrees=True)`
become explicit rotation maps on 3-vectors.  Rotation composition
`rotation *= R.from_euler(...)` composes maps so that applying the product
first applies the new factor, exactly as scipy does.

The arrangement validator (`validate_arangement` and the permutation
search loop at the end of the file) only performs field arithmetic and
comparisons, so it is modelled over the rationals, keeping it executable.

Division by zero follows the Lean convention `x / 0 = 0`; the only place
this matters is the degenerate branch of `simplify`, where the Python
source divides a vector by a zero norm (producing IEEE non-finite values
at runtime) and likewise raises no error.
-/

/-- A 3-vector (models `vectormath.Vector3`). -/
@[ext]
structure Vec3 where
  x : ℝ
  y : ℝ
  z : ℝ

instance : Inhabited Vec3 := ⟨⟨0, 0, 0⟩⟩

noncomputable instance : Add Vec3 := ⟨fun a b => ⟨a.x + b.x, a.y + b.y, a.z + b.z⟩⟩

noncomputable instance : Sub Vec3 := ⟨fun a b => ⟨a.x - b.x, a.y - b.y, a.z - b.z⟩⟩

/-- Dot product (`Vector3.dot`). -/
noncomputable def Vec3.dot (a b : Vec3) : ℝ := a.x * b.x + a.y * b.y + a.z * b.z

/-- Cross product (`Vector3.cross`). -/
noncomputable def Vec3.cross (a b : Vec3) : Vec3 :=
  ⟨a.y * b.z - a.z * b.y, a.z * b.x - a.x * b.z, a.x * b.y - a.y * b.x⟩

/-- Euclidean norm (`Vector3.length`). -/
noncomputable def Vec3.norm (a : Vec3) : ℝ := Real.sqrt (a.dot a)

/-- Componentwise division of a vector by a scalar (`Vector3.__truediv__`). -/
noncomputable def Vec3.sdiv (a : Vec3) (c : ℝ) : Vec3 := ⟨a.x / c, a.y / c, a.z / c⟩

/-- A wire segment: straight length plus a `(bend, twist)` Euler angle pair,
in degrees (the `WireSegment` dataclass of the source). -/
structure WireSegment where
  length : ℝ
  angles : ℝ × ℝ

/-- Degrees to radians (`math.radians`). -/
noncomputable def radians (a : ℝ) : ℝ := a * Real.pi / 180

/-- Radians to degrees (`math.degrees`). -/
noncomputable def degrees (a : ℝ) : ℝ := a * 180 / Real.pi

/-- Rotation about the Z axis by `a` degrees. -/
noncomputable def rotZ (a : ℝ) (v : Vec3) : Vec3 :=
  ⟨Real.cos (radians a) * v.x - Real.sin (radians a) * v.y,
   Real.sin (radians a) * v.x + Real.cos (radians a) * v.y,
   v.z⟩

/-- Rotation about the Y axis by `b` degrees. -/
noncomputable def rotY (b : ℝ) (v : Vec3) : Vec3 :=
  ⟨Real.cos (radians b) * v.x + Real.sin (radians b) * v.z,
   v.y,
   -(Real.sin (radians b)) * v.x + Real.cos (radians b) * v.z⟩

/-- `R.from_euler('ZY', (a, b), degrees=True)`: intrinsic rotation about Z
by `a` then about the new Y by `b`, i.e. the map `rotZ a ∘ rotY b`. -/
noncomputable def fromEulerZY (angles : ℝ × ℝ) : Vec3 → Vec3 :=
  fun v => rotZ angles.1 (rotY angles.2 v)

/-- One step of the path walk shared by `BendWire.__init__` (lines 92-99)
and `simplify` (lines 51-54): first compose the running orientation with
the segment rotation (`rotation *= R.from_euler('ZY', segment.angles)`),
then advance the position by the segment vector `(length, 0, 0)` rotated
by the *new* orientation. -/
noncomputable def stepState (st : (Vec3 → Vec3) × Vec3) (s : WireSegment) :
    (Vec3 → Vec3) × Vec3 :=
  (st.1 ∘ fromEulerZY s.angles,
   st.2 + (st.1 ∘ fromEulerZY s.angles) ⟨s.length, 0, 0⟩)

/-- The list of positions recorded after each segment (`points.append(...)`). -/
noncomputable def pathGo : ((Vec3 → Vec3) × Vec3) → List WireSegment → List Vec3
  | _, [] => []
  | st, s :: rest => (stepState st s).2 :: pathGo (stepState st s) rest

/-- The joint positions of a bent-wire path: the origin, then the position
after each segment (the `points` list of `simplify`, starting from
`Vector3(0, 0, 0)` and the identity orientation). -/
noncomputable def jointPositions (segments : List WireSegment) : List Vec3 :=
  ⟨0, 0, 0⟩ :: pathGo (id, ⟨0, 0, 0⟩) segments

/-- Walking a list of segments from a given state (orientation, position). -/
noncomputable def walkFrom (st : (Vec3 → Vec3) × Vec3) (segments : List WireSegment) :
    (Vec3 → Vec3) × Vec3 :=
  segments.foldl stepState st

/-- Final position after walking the whole path from origin and identity. -/
noncomputable def pathEnd (segments : List WireSegment) : Vec3 :=
  (walkFrom (id, ⟨0, 0, 0⟩) segments).2

/-- `DIAMETER_COLOR_MAP = {0.5: 'gray', 1.0: 'black'}`; a lookup of a
missing key raises `KeyError` in the source, modelled by `none`. -/
noncomputable def DIAMETER_COLOR_MAP (d : ℝ) : Option String :=
  if d = 0.5 then some "gray" else if d = 1.0 then some "black" else none

/-- Failure modes of `BendWire` construction and of `simplify`:
`precondition` models the `ValueError`s of `simplify` (segment count not 2,
first angles not `(0, 0)`), `unknownDiameter` the `KeyError` of the
`DIAMETER_COLOR_MAP` lookup, `invalidPath` the `UnboundLocalError` on
`svg_width` that an empty segment sequence causes at line 110. -/
inductive Err where
  | precondition
  | unknownDiameter
  | invalidPath
  deriving DecidableEq

/-- Tags of the transform history: `'t'`, `'r'`, `'m'` in the source. -/
inductive TKind where
  | t
  | r
  | m
  deriving DecidableEq

/-- The `BendWire` state that survives construction: its identifying data,
the transform history, the accumulated wire length (with bend allowance)
and the cumulative absolute bend angle.  The solid model and SVG group are
opaque rendering state and are not modelled. -/
structure BendWire where
  title : String
  diameter : ℝ
  segments : List WireSegment
  transformations : List (TKind × (ℝ × ℝ × ℝ))
  length : ℝ
  cum_angle : ℝ

/-- `BendWire.__init__`.  The color lookup at line 85 runs before any loop,
so an unconfigured diameter fails first; with an empty segment sequence the
layout code at line 110 reads the never-assigned local `svg_width` and
fails.  Otherwise the constructor records the segments, an empty transform
history, the total length `Σ (length + diameter/2 * |bend| / 360)` and the
cumulative bend angle `Σ |bend|` (lines 86-91). -/
noncomputable def mkBendWire (title : String) (diameter : ℝ)
    (segments : List WireSegment) : Except Err BendWire :=
  match DIAMETER_COLOR_MAP diameter with
  | none => Except.error Err.unknownDiameter
  | some _ =>
    match segments with
    | [] => Except.error Err.invalidPath
    | _ => Except.ok
        { title := title
          diameter := diameter
          segments := segments
          transformations := []
          length := segments.foldl
            (fun acc s => acc + (s.length + diameter / 2 * |s.angles.1| / 360)) 0
          cum_angle := segments.foldl (fun acc s => acc + |s.angles.1|) 0 }

/-- `BendWire.translate`: appends `('t', [x, y, z])` to the history. -/
def BendWire.translate (bw : BendWire) (x y z : ℝ) : BendWire :=
  { bw with transformations := bw.transformations ++ [(TKind.t, (x, y, z))] }

/-- `BendWire.rotate`: appends `('r', [x, y, z])` to the history. -/
def BendWire.rotate (bw : BendWire) (x y z : ℝ) : BendWire :=
  { bw with transformations := bw.transformations ++ [(TKind.r, (x, y, z))] }

/-- `BendWire.mirror`: appends `('m', [x, y, z])` to the history. -/
def BendWire.mirror (bw : BendWire) (x y z : ℝ) : BendWire :=
  { bw with transformations := bw.transformations ++ [(TKind.m, (x, y, z))] }

/-- Replay of one recorded transformation, as in the body of `copy`. -/
def applyTransformation (bw : BendWire) (tr : TKind × (ℝ × ℝ × ℝ)) : BendWire :=
  match tr with
  | (TKind.t, (x, y, z)) => bw.translate x y z
  | (TKind.r, (x, y, z)) => bw.rotate x y z
  | (TKind.m, (x, y, z)) => bw.mirror x y z

/-- `BendWire.copy`: construct a fresh instance from the same
`(title, diameter, segments)` and replay the transform history in order. -/
noncomputable def BendWire.copy (bw : BendWire) : Except Err BendWire :=
  (mkBendWire bw.title bw.diameter bw.segments).map
    (fun new => bw.transformations.foldl applyTransformation new)

/-- The `bend_angle` of `simplify` (line 57): walk the 2-segment path to
get the 3 joints (`points`, line 44-54), take the two direction vectors
and return `degrees(acos(v0·v2 / |v0| / |v2|))`. -/
noncomputable def simplifyBend (s0 s1 : WireSegment) : ℝ :=
  let points := jointPositions [s0, s1]
  let v0 := points[1]! - points[0]!
  let v2 := points[2]! - points[1]!
  degrees (Real.arccos (v0.dot v2 / v0.norm / v2.norm))

/-- The `rot_angle` of `simplify` (lines 58-59), with the source's own
parenthesization `vn.dot(Vector3(0, 0, 1) / vn.length /
Vector3(0, 0, 1).length)` where `vn = v0 × v2`. -/
noncomputable def simplifyRoll (s0 s1 : WireSegment) : ℝ :=
  let points := jointPositions [s0, s1]
  let v0 := points[1]! - points[0]!
  let v2 := points[2]! - points[1]!
  let vn := v0.cross v2
  degrees (Real.arccos
    (vn.dot (((⟨0, 0, 1⟩ : Vec3).sdiv vn.norm).sdiv (⟨0, 0, 1⟩ : Vec3).norm)))

/-- `simplify` (lines 43-60): requires exactly 2 segments, the first with
angles `(0, 0)` (else `ValueError`, modelled `Err.precondition`); then
builds a new 2-segment `BendWire` whose second segment carries the
computed bend angle, rotated by the negated roll angle.  The `BendWire`
constructor call can itself fail on an unconfigured diameter. -/
noncomputable def simplify (title : String) (diameter : ℝ)
    (segments : List WireSegment) : Except Err BendWire :=
  match segments with
  | [s0, s1] =>
    if s0.angles = ((0 : ℝ), (0 : ℝ)) then
      (mkBendWire title diameter [s0, ⟨s1.length, (simplifyBend s0 s1, 0)⟩]).map
        (fun bw => bw.rotate (-(simplifyRoll s0 s1)) 0 0)
    else Except.error Err.precondition
  | _ => Except.error Err.precondition

/-- `UNIT_WIRE_LENGTH = {0.5: 300, 1.0: 300, 1.58: 304}` (spool lengths,
exact rationals; a missing key is `none`). -/
def UNIT_WIRE_LENGTH (d : ℚ) : Option ℚ :=
  if d = 0.5 then some 300
  else if d = 1.0 then some 300
  else if d = 1.58 then some 304
  else none

/-- `ORDERED_WIRE_LENGTH = {0.5: 300*5, 1.0: 300*4, 1.58: 304*2*2}`. -/
def ORDERED_WIRE_LENGTH (d : ℚ) : Option ℚ :=
  if d = 0.5 then some (300 * 5)
  else if d = 1.0 then some (300 * 4)
  else if d = 1.58 then some (304 * 2 * 2)
  else none

/-- The loop body of `validate_arangement` (lines 383-393), with state
`(unit_number, cum)`.  A piece that would overflow the current spool opens
a new spool (`unit_number += 1`, `cum = 0`) and is *not* added to any
running sum; the function fails when `unit_number` exceeds
`ORDERED_WIRE_LENGTH[d] / UNIT_WIRE_LENGTH[d]`. -/
def validateGo (u o : ℚ) : ℕ → ℚ → List ℚ → Bool
  | _, _, [] => true
  | n, cum, a :: rest =>
    if u < cum + a then
      if o / u < ((n + 1 : ℕ) : ℚ) then false
      else validateGo u o (n + 1) 0 rest
    else validateGo u o n (cum + a) rest

/-- `validate_arangement(d, arangement)`; `none` models the `KeyError`
when `d` is not a key of the inventory tables. -/
def validate_arangement (d : ℚ) (arangement : List ℚ) : Option Bool :=
  match UNIT_WIRE_LENGTH d, ORDERED_WIRE_LENGTH d with
  | some u, some o => some (validateGo u o 0 0 arangement)
  | _, _ => none

/-- The permutation search loop (lines 395-399): success is reported for
diameter `d` exactly when some permutation of the committed lengths passes
`validate_arangement`. -/
def arrangementFound (d : ℚ) (segments : List ℚ) : Option Bool :=
  match UNIT_WIRE_LENGTH d, ORDERED_WIRE_LENGTH d with
  | some _, some _ =>
    some (segments.permutations.any fun p => (validate_arangement d p).getD false)
  | _, _ => none

/-- Modelled from the spec (section 4.4 wording, the specification side of
the refinement claim about the validator): greedy left-to-right packing
into bins of fixed capacity `cap`, opening a new bin whenever the current
piece would overflow the current bin; returns the number of bins used.
State: `(bins opened so far, load of the current bin)`. -/
def greedyGo (cap : ℚ) : ℕ → ℚ → List ℚ → ℕ
  | bins, _, [] => bins
  | bins, load, a :: rest =>
    if cap < load + a then greedyGo cap (bins + 1) a rest
    else greedyGo cap bins (load + a) rest

/-- Modelled from the spec: the number of fixed-capacity bins the greedy
left-to-right packing uses on a list, starting with one empty bin. -/
def greedyBins (cap : ℚ) (l : List ℚ) : ℕ := greedyGo cap 1 0 l

/-! ### Basic facts about the embedded operations -/

theorem Vec3.add_def (a b : Vec3) : a + b = ⟨a.x + b.x, a.y + b.y, a.z + b.z⟩ := rfl

theorem Vec3.sub_def (a b : Vec3) : a - b = ⟨a.x - b.x, a.y - b.y, a.z - b.z⟩ := rfl

theorem pathGo_length (segments : List WireSegment) :
    ∀ st : (Vec3 → Vec3) × Vec3, (pathGo st segments).length = segments.length := by
  induction segments with
  | nil => intro st; rfl
  | cons s rest ih => intro st; simp [pathGo, ih]

theorem pathGo_getElem (segments : List WireSegment) :
    ∀ (st : (Vec3 → Vec3) × Vec3) (i : ℕ), i < segments.length →
      (pathGo st segments)[i]? = some ((walkFrom st (segments.take (i + 1))).2) := by
  induction segments with
  | nil => intro st i h; simp at h
  | cons s rest ih =>
    intro st i h
    cases i with
    | zero => simp [pathGo, walkFrom]
    | succ j =>
      have hj : j < rest.length := by simpa using h
      simpa [pathGo, walkFrom] using ih (stepState st s) j hj

theorem colorMap_half : DIAMETER_COLOR_MAP 0.5 = some "gray" := by
  unfold DIAMETER_COLOR_MAP
  rw [if_pos rfl]

theorem colorMap_one : DIAMETER_COLOR_MAP 1.0 = some "black" := by
  unfold DIAMETER_COLOR_MAP
  rw [if_neg (by norm_num), if_pos rfl]

theorem colorMap_unconfigured : DIAMETER_COLOR_MAP 1.58 = none := by
  unfold DIAMETER_COLOR_MAP
  rw [if_neg (by norm_num), if_neg (by norm_num)]

theorem colorMap_pos (d : ℝ) (c : String) (h : DIAMETER_COLOR_MAP d = some c) : 0 < d := by
  unfold DIAMETER_COLOR_MAP at h
  split_ifs at h with h1 h2
  · subst h1; norm_num
  · subst h2; norm_num

theorem mkBendWire_ok_elim (ti : String) (d : ℝ) (segs : List WireSegment) (bw : BendWire)
    (h : mkBendWire ti d segs = Except.ok bw) :
    bw = { title := ti, diameter := d, segments := segs, transformations := [],
           length := segs.foldl
             (fun acc s => acc + (s.length + d / 2 * |s.angles.1| / 360)) 0,
           cum_angle := segs.foldl (fun acc s => acc + |s.angles.1|) 0 } ∧
    (∃ c, DIAMETER_COLOR_MAP d = some c) ∧ segs ≠ [] := by
  unfold mkBendWire at h
  cases hcm : DIAMETER_COLOR_MAP d with
  | none => rw [hcm] at h; exact Except.noConfusion h
  | some c =>
    rw [hcm] at h
    cases segs with
    | nil => exact Except.noConfusion h
    | cons s rest =>
      exact ⟨(Except.ok.inj h).symm, ⟨c, rfl⟩, by simp⟩

theorem foldl_add_eq_sum (f : WireSegment → ℝ) :
    ∀ (l : List WireSegment) (init : ℝ),
      l.foldl (fun acc s => acc + f s) init = init + (l.map f).sum := by
  intro l
  induction l with
  | nil => intro init; simp
  | cons s rest ih =>
    intro init
    simp only [List.foldl_cons, List.map_cons, List.sum_cons, ih]
    ring

/-! ### Claim C1 -/

/-- C1: for every non-empty segment sequence the path walk starts at the
origin with identity orientation, records `len(segments) + 1` joints whose
first is the origin, and the joint after segment `i` is the previous joint
plus the segment vector rotated by the orientation obtained by *first*
composing the running orientation with that segment's rotation. -/
theorem c1_joint_positions (segs : List WireSegment) (h : segs ≠ []) :
    (jointPositions segs).length = segs.length + 1 ∧
    (jointPositions segs).head? = some ⟨0, 0, 0⟩ ∧
    ∀ i (hi : i < segs.length),
      (jointPositions segs)[i + 1]? = some (pathEnd (segs.take (i + 1))) ∧
      pathEnd (segs.take (i + 1)) =
        pathEnd (segs.take i) +
          (walkFrom (id, ⟨0, 0, 0⟩) (segs.take (i + 1))).1 ⟨segs[i].length, 0, 0⟩ := by
  refine ⟨by simp [jointPositions, pathGo_length], rfl, ?_⟩
  intro i hi
  constructor
  · simpa [jointPositions] using pathGo_getElem segs (id, ⟨0, 0, 0⟩) i hi
  · have htake : segs.take (i + 1) = segs.take i ++ [segs[i]] := by
      rw [List.take_succ]
      simp [List.getElem?_eq_getElem hi]
    rw [htake]
    unfold pathEnd walkFrom
    rw [List.foldl_append]
    simp [stepState]

/-- C1 witness: a concrete one-segment path has two joints, the first of
which is the origin. -/
theorem c1_joint_positions_witness :
    (jointPositions [⟨10, (0, 0)⟩]).length = 1 + 1 ∧
    (jointPositions [⟨10, (0, 0)⟩]).head? = some ⟨0, 0, 0⟩ := by
  have h := c1_joint_positions [⟨10, (0, 0)⟩] (by simp)
  exact ⟨h.1, h.2.1⟩

/-! ### Claim C2 -/

/-- C2: the total length of a constructed `BendWire` is the sum over the
segments of `length + diameter/2 * |bend| / 360`, and is at least the
plain sum of the segment lengths. -/
theorem c2_total_length (ti : String) (d : ℝ) (segs : List WireSegment)
    (bw : BendWire) (h : mkBendWire ti d segs = Except.ok bw) :
    bw.length = (segs.map (fun s => s.length + d / 2 * |s.angles.1| / 360)).sum ∧
    (segs.map WireSegment.length).sum ≤ bw.length := by
  obtain ⟨hbw, ⟨c, hcm⟩, -⟩ := mkBendWire_ok_elim ti d segs bw h
  have hlen : bw.length = segs.foldl
      (fun acc s => acc + (s.length + d / 2 * |s.angles.1| / 360)) 0 := by rw [hbw]
  have hsum : bw.length =
      (segs.map (fun s => s.length + d / 2 * |s.angles.1| / 360)).sum := by
    rw [hlen, foldl_add_eq_sum (fun s => s.length + d / 2 * |s.angles.1| / 360) segs 0,
      zero_add]
  refine ⟨hsum, ?_⟩
  rw [hsum]
  have hd : 0 < d := colorMap_pos d c hcm
  refine List.sum_le_sum ?_
  intro s hs
  have : 0 ≤ d / 2 * |s.angles.1| / 360 := by positivity
  linarith

/-- C2 witness: a concrete one-segment wire of diameter 0.5 with a 90°
bend has total length `10 + 0.5/2 * 90 / 360 = 161/16`. -/
theorem c2_total_length_witness :
    (⟨"w", 0.5, [⟨10, (90, 0)⟩], [], 161 / 16, 90⟩ : BendWire).length =
      ([(⟨10, (90, 0)⟩ : WireSegment)].map
        (fun s => s.length + 0.5 / 2 * |s.angles.1| / 360)).sum ∧
    ([(⟨10, (90, 0)⟩ : WireSegment)].map WireSegment.length).sum ≤
      (⟨"w", 0.5, [⟨10, (90, 0)⟩], [], 161 / 16, 90⟩ : BendWire).length := by
  have h : mkBendWire "w" 0.5 [⟨10, (90, 0)⟩] =
      Except.ok ⟨"w", 0.5, [⟨10, (90, 0)⟩], [], 161 / 16, 90⟩ := by
    unfold mkBendWire
    rw [colorMap_half]
    simp only [List.foldl_cons, List.foldl_nil]
    norm_num [abs_of_nonneg]
  exact c2_total_length "w" 0.5 [⟨10, (90, 0)⟩] _ h

/-! ### Claim C4 -/

/-- C4 counterexample: the claim says an empty segment sequence is the
*only* error condition of construction, but the non-empty sequence
`[⟨10, (0, 0)⟩]` also fails when the diameter (1.58, a stocked spool
diameter) has no entry in the color table. -/
theorem c4_counterexample :
    mkBendWire "w" 1.58 [⟨10, (0, 0)⟩] = Except.error Err.unknownDiameter ∧
    ([⟨10, (0, 0)⟩] : List WireSegment) ≠ [] := by
  constructor
  · unfold mkBendWire
    rw [colorMap_unconfigured]
  · simp

/-- C4 (amended): construction fails on an empty segment sequence, and
also fails when the diameter has no configured color; these are exactly
the error conditions, the diameter check coming first. -/
theorem c4_error_conditions (ti : String) (d : ℝ) (segs : List WireSegment) :
    (mkBendWire ti d segs = Except.error Err.unknownDiameter ↔
      DIAMETER_COLOR_MAP d = none) ∧
    (mkBendWire ti d segs = Except.error Err.invalidPath ↔
      DIAMETER_COLOR_MAP d ≠ none ∧ segs = []) ∧
    ((∃ bw, mkBendWire ti d segs = Except.ok bw) ↔
      DIAMETER_COLOR_MAP d ≠ none ∧ segs ≠ []) := by
  unfold mkBendWire
  cases hcm : DIAMETER_COLOR_MAP d with
  | none => simp
  | some c =>
    cases segs with
    | nil => simp
    | cons s rest => simp

/-! ### Claim C9 -/

/-- C9: `copy()` on a freshly constructed `BendWire` (no transforms
applied) reproduces the instance exactly: same joint geometry, total
length and cumulative bend angle, with an empty replayed history. -/
theorem c9_copy_pretransform (ti : String) (d : ℝ) (segs : List WireSegment)
    (bw : BendWire) (h : mkBendWire ti d segs = Except.ok bw) :
    bw.copy = Except.ok bw := by
  obtain ⟨hbw, -, -⟩ := mkBendWire_ok_elim ti d segs bw h
  have ht : bw.title = ti := by rw [hbw]
  have hd : bw.diameter = d := by rw [hbw]
  have hs : bw.segments = segs := by rw [hbw]
  have htr : bw.transformations = [] := by rw [hbw]
  unfold BendWire.copy
  rw [ht, hd, hs, htr, h]
  rfl

/-- C9 witness: copying a concrete pre-transform wire returns an equal
instance. -/
theorem c9_copy_pretransform_witness :
    BendWire.copy ⟨"v", 1.0, [⟨5, (0, 0)⟩], [], 5, 0⟩ =
      Except.ok ⟨"v", 1.0, [⟨5, (0, 0)⟩], [], 5, 0⟩ := by
  have h : mkBendWire "v" 1.0 [⟨5, (0, 0)⟩] =
      Except.ok ⟨"v", 1.0, [⟨5, (0, 0)⟩], [], 5, 0⟩ := by
    unfold mkBendWire
    rw [colorMap_one]
    simp only [List.foldl_cons, List.foldl_nil]
    norm_num
  exact c9_copy_pretransform "v" 1.0 [⟨5, (0, 0)⟩] _ h

/-! ### Trigonometric and geometric evaluation lemmas -/

theorem radians_zero : radians 0 = 0 := by simp [radians]

theorem radians_ninety : radians 90 = Real.pi / 2 := by unfold radians; ring

theorem rotZ_zero (v : Vec3) : rotZ 0 v = v := by
  simp [rotZ, radians_zero]

theorem rotY_zero (v : Vec3) : rotY 0 v = v := by
  simp [rotY, radians_zero]

theorem rotZ_ninety (v : Vec3) : rotZ 90 v = ⟨-v.y, v.x, v.z⟩ := by
  simp [rotZ, radians_ninety]

theorem degrees_pi_div_two : degrees (Real.pi / 2) = 90 := by
  unfold degrees
  field_simp
  ring

theorem degrees_zero : degrees 0 = 0 := by simp [degrees]

theorem degrees_arccos_zero : degrees (Real.arccos 0) = 90 := by
  rw [Real.arccos_zero, degrees_pi_div_two]

theorem degrees_arccos_one : degrees (Real.arccos 1) = 0 := by
  rw [Real.arccos_one, degrees_zero]

theorem norm_xaxis (a : ℝ) (h : 0 ≤ a) : Vec3.norm ⟨a, 0, 0⟩ = a := by
  have hd : (⟨a, 0, 0⟩ : Vec3).dot ⟨a, 0, 0⟩ = a * a := by simp [Vec3.dot]
  rw [Vec3.norm, hd, Real.sqrt_mul_self h]

theorem norm_zaxis (a : ℝ) (h : 0 ≤ a) : Vec3.norm ⟨0, 0, a⟩ = a := by
  have hd : (⟨0, 0, a⟩ : Vec3).dot ⟨0, 0, a⟩ = a * a := by simp [Vec3.dot]
  rw [Vec3.norm, hd, Real.sqrt_mul_self h]

theorem zero_vec_dot (w : Vec3) : (⟨0, 0, 0⟩ : Vec3).dot w = 0 := by simp [Vec3.dot]

theorem jointPositions_right_angle :
    jointPositions [⟨10, (0, 0)⟩, ⟨10, (90, 0)⟩] =
      [⟨0, 0, 0⟩, ⟨10, 0, 0⟩, ⟨10, 10, 0⟩] := by
  simp [jointPositions, pathGo, stepState, Function.comp, fromEulerZY, rotY_zero,
    rotZ_zero, rotZ_ninety, Vec3.add_def]

theorem jointPositions_straight :
    jointPositions [⟨10, (0, 0)⟩, ⟨10, (0, 0)⟩] =
      [⟨0, 0, 0⟩, ⟨10, 0, 0⟩, ⟨20, 0, 0⟩] := by
  simp [jointPositions, pathGo, stepState, Function.comp, fromEulerZY, rotY_zero,
    rotZ_zero, Vec3.add_def]
  norm_num

theorem bend_right_angle : simplifyBend ⟨10, (0, 0)⟩ ⟨10, (90, 0)⟩ = 90 := by
  simp only [simplifyBend, jointPositions_right_angle]
  simp [Vec3.sub_def, Vec3.dot, degrees_arccos_zero, degrees_pi_div_two]

theorem roll_right_angle : simplifyRoll ⟨10, (0, 0)⟩ ⟨10, (90, 0)⟩ = 0 := by
  simp only [simplifyRoll, jointPositions_right_angle]
  norm_num [Vec3.sub_def, Vec3.dot, Vec3.cross, Vec3.sdiv, norm_zaxis,
    degrees_arccos_one, degrees_zero]

theorem simplifyRoll_degenerate (s0 s1 : WireSegment)
    (hx : Vec3.cross ((jointPositions [s0, s1])[1]! - (jointPositions [s0, s1])[0]!)
        ((jointPositions [s0, s1])[2]! - (jointPositions [s0, s1])[1]!) = ⟨0, 0, 0⟩) :
    simplifyRoll s0 s1 = 90 := by
  simp only [simplifyRoll]
  rw [hx, zero_vec_dot, degrees_arccos_zero]

theorem simplify_ok_form (ti : String) (d : ℝ) (s0 s1 : WireSegment)
    (h : s0.angles = (0, 0)) :
    simplify ti d [s0, s1] =
      (mkBendWire ti d [s0, ⟨s1.length, (simplifyBend s0 s1, 0)⟩]).map
        (fun bw => bw.rotate (-(simplifyRoll s0 s1)) 0 0) := by
  simp only [simplify]
  rw [if_pos h]

theorem mkBendWire_error_elim (ti : String) (d : ℝ) (segs : List WireSegment)
    (e : Err) (h : mkBendWire ti d segs = Except.error e) :
    e = Err.unknownDiameter ∨ e = Err.invalidPath := by
  unfold mkBendWire at h
  cases hcm : DIAMETER_COLOR_MAP d with
  | none => rw [hcm] at h; exact Or.inl (Except.error.inj h).symm
  | some c =>
    rw [hcm] at h
    cases segs with
    | nil => exact Or.inr (Except.error.inj h).symm
    | cons s rest => exact Except.noConfusion h

/-! ### Claim C6 -/

/-- C6: `simplify` on `[(10, (0,0)), (10, (90,0))]` produces a wire whose
single computed bend angle is 90° and whose total length is the two
straight lengths plus only the 4.1 bend-allowance term
`diameter/2 * 90 / 360` (no cross-term). -/
theorem c6_simplify_right_angle (ti : String) (d : ℝ) (c : String)
    (h : DIAMETER_COLOR_MAP d = some c) :
    (simplify ti d [⟨10, (0, 0)⟩, ⟨10, (90, 0)⟩]).map BendWire.segments =
      Except.ok [⟨10, (0, 0)⟩, ⟨10, (90, 0)⟩] ∧
    (simplify ti d [⟨10, (0, 0)⟩, ⟨10, (90, 0)⟩]).map BendWire.length =
      Except.ok (10 + 10 + d / 2 * 90 / 360) := by
  have hsim : simplify ti d [⟨10, (0, 0)⟩, ⟨10, (90, 0)⟩] =
      (mkBendWire ti d [⟨10, (0, 0)⟩, ⟨10, (90, 0)⟩]).map
        (fun bw => bw.rotate (-(0 : ℝ)) 0 0) := by
    rw [simplify_ok_form ti d ⟨10, (0, 0)⟩ ⟨10, (90, 0)⟩ rfl]
    simp only [bend_right_angle, roll_right_angle]
  cases hok : mkBendWire ti d [⟨10, (0, 0)⟩, ⟨10, (90, 0)⟩] with
  | error e =>
    exfalso
    unfold mkBendWire at hok
    rw [h] at hok
    exact Except.noConfusion hok
  | ok bw2 =>
    obtain ⟨hbw2, -, -⟩ := mkBendWire_ok_elim ti d _ bw2 hok
    rw [hsim, hok]
    constructor
    · simp [Except.map, BendWire.rotate, hbw2]
    · simp [Except.map, BendWire.rotate, hbw2]
      norm_num [abs_of_nonneg]
      ring

/-- C6 witness: the property at the concrete configured diameter 1.0. -/
theorem c6_simplify_right_angle_witness :
    (simplify "t" 1.0 [⟨10, (0, 0)⟩, ⟨10, (90, 0)⟩]).map BendWire.segments =
      Except.ok [⟨10, (0, 0)⟩, ⟨10, (90, 0)⟩] ∧
    (simplify "t" 1.0 [⟨10, (0, 0)⟩, ⟨10, (90, 0)⟩]).map BendWire.length =
      Except.ok (10 + 10 + 1.0 / 2 * 90 / 360) :=
  c6_simplify_right_angle "t" 1.0 "black" colorMap_one

/-! ### Claim C7 -/

theorem cross_straight_zero :
    Vec3.cross ((jointPositions [⟨10, (0, 0)⟩, ⟨10, (0, 0)⟩])[1]! -
        (jointPositions [⟨10, (0, 0)⟩, ⟨10, (0, 0)⟩])[0]!)
      ((jointPositions [⟨10, (0, 0)⟩, ⟨10, (0, 0)⟩])[2]! -
        (jointPositions [⟨10, (0, 0)⟩, ⟨10, (0, 0)⟩])[1]!) = ⟨0, 0, 0⟩ := by
  rw [jointPositions_straight]
  simp [Vec3.sub_def, Vec3.cross]

/-- C7 counterexample: on the collinear input
`[(10, (0,0)), (10, (0,0))]` the direction vectors have zero cross
product, yet `simplify` raises no error: it returns a `BendWire`
(here, with the division-by-zero roll evaluating to 90° under total
real division). -/
theorem c7_counterexample :
    Vec3.cross ((jointPositions [⟨10, (0, 0)⟩, ⟨10, (0, 0)⟩])[1]! -
        (jointPositions [⟨10, (0, 0)⟩, ⟨10, (0, 0)⟩])[0]!)
      ((jointPositions [⟨10, (0, 0)⟩, ⟨10, (0, 0)⟩])[2]! -
        (jointPositions [⟨10, (0, 0)⟩, ⟨10, (0, 0)⟩])[1]!) = ⟨0, 0, 0⟩ ∧
    (simplify "w" 1.0 [⟨10, (0, 0)⟩, ⟨10, (0, 0)⟩]).map BendWire.transformations =
      Except.ok [(TKind.r, (-(90 : ℝ), 0, 0))] := by
  refine ⟨cross_straight_zero, ?_⟩
  simp only [simplify_ok_form "w" 1.0 ⟨10, (0, 0)⟩ ⟨10, (0, 0)⟩ rfl,
    simplifyRoll_degenerate ⟨10, (0, 0)⟩ ⟨10, (0, 0)⟩ cross_straight_zero]
  unfold mkBendWire
  rw [colorMap_one]
  rfl

/-- C7 (amended): when the two direction vectors of a shape-valid
2-segment input are collinear (`v0 × v2 = 0`), `simplify` does not fail:
it still returns a `BendWire`, whose recorded roll rotation is
`(-90, 0, 0)` (the degenerate division by the zero norm makes the
roll-angle argument 0, whose arccos is 90°). -/
theorem c7_degenerate_no_error (ti : String) (d : ℝ) (c : String)
    (s0 s1 : WireSegment)
    (hc : DIAMETER_COLOR_MAP d = some c) (ha : s0.angles = (0, 0))
    (hx : Vec3.cross ((jointPositions [s0, s1])[1]! - (jointPositions [s0, s1])[0]!)
        ((jointPositions [s0, s1])[2]! - (jointPositions [s0, s1])[1]!) = ⟨0, 0, 0⟩) :
    (simplify ti d [s0, s1]).map BendWire.transformations =
      Except.ok [(TKind.r, (-(90 : ℝ), 0, 0))] := by
  simp only [simplify_ok_form ti d s0 s1 ha, simplifyRoll_degenerate s0 s1 hx]
  cases hok : mkBendWire ti d [s0, ⟨s1.length, (simplifyBend s0 s1, 0)⟩] with
  | error e =>
    exfalso
    unfold mkBendWire at hok
    rw [hc] at hok
    exact Except.noConfusion hok
  | ok bw2 =>
    obtain ⟨hbw2, -, -⟩ := mkBendWire_ok_elim ti d _ bw2 hok
    simp [Except.map, BendWire.rotate, hbw2]

/-- C7 witness: the amended statement at the concrete collinear input. -/
theorem c7_degenerate_no_error_witness :
    (simplify "u" 1.0 [⟨10, (0, 0)⟩, ⟨10, (0, 0)⟩]).map BendWire.transformations =
      Except.ok [(TKind.r, (-(90 : ℝ), 0, 0))] :=
  c7_degenerate_no_error "u" 1.0 "black" ⟨10, (0, 0)⟩ ⟨10, (0, 0)⟩
    colorMap_one rfl cross_straight_zero

/-! ### Claim C8 -/

/-- C8: `simplify` fails with the precondition error exactly when the
input is not a 2-segment list whose first segment has angles `(0, 0)`,
and any successful run implies the input had that shape. -/
theorem c8_simplify_precondition (ti : String) (d : ℝ) (segs : List WireSegment) :
    (simplify ti d segs = Except.error Err.precondition ↔
      ¬ ∃ s0 s1, segs = [s0, s1] ∧ s0.angles = (0, 0)) ∧
    (∀ bw, simplify ti d segs = Except.ok bw →
      ∃ s0 s1, segs = [s0, s1] ∧ s0.angles = (0, 0)) := by
  rcases segs with - | ⟨s0, - | ⟨s1, - | ⟨s2, rest⟩⟩⟩
  · refine ⟨⟨fun _ => ?_, fun _ => rfl⟩, fun bw hbw => Except.noConfusion hbw⟩
    rintro ⟨a, b, heq, -⟩
    simp at heq
  · refine ⟨⟨fun _ => ?_, fun _ => rfl⟩, fun bw hbw => Except.noConfusion hbw⟩
    rintro ⟨a, b, heq, -⟩
    simp at heq
  · by_cases hang : s0.angles = ((0 : ℝ), (0 : ℝ))
    · constructor
      · rw [simplify_ok_form ti d s0 s1 hang]
        constructor
        · intro hmap
          exfalso
          cases hok : mkBendWire ti d [s0, ⟨s1.length, (simplifyBend s0 s1, 0)⟩] with
          | error e =>
            rw [hok] at hmap
            simp [Except.map] at hmap
            rcases mkBendWire_error_elim ti d _ e hok with h1 | h1 <;>
              (rw [hmap] at h1; exact Err.noConfusion h1)
          | ok bw2 =>
            rw [hok] at hmap
            simp [Except.map] at hmap
        · intro hn
          exact absurd ⟨s0, s1, rfl, hang⟩ hn
      · intro bw hbw
        exact ⟨s0, s1, rfl, hang⟩
    · have herr : simplify ti d [s0, s1] = Except.error Err.precondition := by
        simp only [simplify]
        rw [if_neg hang]
      refine ⟨⟨fun _ => ?_, fun _ => herr⟩, fun bw hbw => ?_⟩
      · rintro ⟨a, b, heq, hab⟩
        injection heq with h1 h2
        subst h1
        exact hang hab
      · rw [herr] at hbw
        exact Except.noConfusion hbw
  · refine ⟨⟨fun _ => ?_, fun _ => rfl⟩, fun bw hbw => Except.noConfusion hbw⟩
    rintro ⟨a, b, heq, -⟩
    simp at heq

/-- C8 witness: a 2-segment input whose first angles are `(1, 0)` fails
with the precondition error. -/
theorem c8_simplify_precondition_witness :
    simplify "w" 1.0 [⟨5, (1, 0)⟩, ⟨5, (0, 0)⟩] = Except.error Err.precondition := by
  refine (c8_simplify_precondition "w" 1.0 [⟨5, (1, 0)⟩, ⟨5, (0, 0)⟩]).1.mpr ?_
  rintro ⟨a, b, heq, hab⟩
  injection heq with h1 h2
  subst h1
  exact absurd hab (by simp)

/-! ### The arrangement validator -/

theorem greedyGo_le (cap : ℚ) :
    ∀ (l : List ℚ) (bins : ℕ) (load : ℚ), bins ≤ greedyGo cap bins load l := by
  intro l
  induction l with
  | nil => intro bins load; simp [greedyGo]
  | cons a rest ih =>
    intro bins load
    simp only [greedyGo]
    split
    · exact le_trans (Nat.le_succ bins) (ih (bins + 1) a)
    · exact ih bins (load + a)

theorem validateGo_of_greedy (u o : ℚ) :
    ∀ (l : List ℚ), (∀ x ∈ l, 0 ≤ x) →
    ∀ (n bins : ℕ) (cum load : ℚ), 0 ≤ load →
      (n + 1 < bins ∨ (n + 1 = bins ∧ cum ≤ load)) →
      ((greedyGo u bins load l : ℚ) ≤ o / u) →
      validateGo u o n cum l = true := by
  intro l
  induction l with
  | nil => intro _ n bins cum load _ _ _; rfl
  | cons a rest ih =>
    intro hnn n bins cum load hload hinv hbound
    have ha : 0 ≤ a := hnn a (by simp)
    have hrest : ∀ x ∈ rest, 0 ≤ x := fun x hx => hnn x (by simp [hx])
    have hn1bins : n + 1 ≤ bins := by
      rcases hinv with h | ⟨h, -⟩
      · exact le_of_lt h
      · exact le_of_eq h
    simp only [validateGo]
    by_cases hc : u < cum + a
    · rw [if_pos hc]
      by_cases hg : u < load + a
      · have hgrew : greedyGo u bins load (a :: rest) = greedyGo u (bins + 1) a rest := by
          simp only [greedyGo]
          rw [if_pos hg]
        have hok : ¬ (o / u < ((n + 1 : ℕ) : ℚ)) := by
          rw [not_lt]
          have h1 : ((n + 1 : ℕ) : ℚ) ≤ ((bins + 1 : ℕ) : ℚ) := by
            exact_mod_cast Nat.le_succ_of_le hn1bins
          have h2 : ((bins + 1 : ℕ) : ℚ) ≤ ((greedyGo u (bins + 1) a rest : ℕ) : ℚ) := by
            exact_mod_cast greedyGo_le u rest (bins + 1) a
          rw [hgrew] at hbound
          linarith
        rw [if_neg hok]
        apply ih hrest (n + 1) (bins + 1) 0 a ha
        · rcases hinv with h | ⟨h, -⟩
          · left; omega
          · right; exact ⟨by omega, ha⟩
        · rw [← hgrew]; exact hbound
      · have hlt : n + 1 < bins := by
          rcases hinv with h | ⟨heq, hcl⟩
          · exact h
          · exfalso
            apply hg
            have hq : cum + a ≤ load + a := by linarith
            exact lt_of_lt_of_le hc hq
        have hgrew : greedyGo u bins load (a :: rest) = greedyGo u bins (load + a) rest := by
          simp only [greedyGo]
          rw [if_neg hg]
        have hok : ¬ (o / u < ((n + 1 : ℕ) : ℚ)) := by
          rw [not_lt]
          have h1 : ((n + 1 : ℕ) : ℚ) ≤ ((bins : ℕ) : ℚ) := by
            exact_mod_cast le_of_lt hlt
          have h2 : ((bins : ℕ) : ℚ) ≤ ((greedyGo u bins (load + a) rest : ℕ) : ℚ) := by
            exact_mod_cast greedyGo_le u rest bins (load + a)
          rw [hgrew] at hbound
          linarith
        rw [if_neg hok]
        apply ih hrest (n + 1) bins 0 (load + a) (by linarith)
        · rcases Nat.lt_or_ge (n + 1 + 1) bins with h | h
          · left; exact h
          · right
            have heq2 : n + 1 + 1 = bins := by omega
            exact ⟨heq2, by linarith⟩
        · rw [← hgrew]; exact hbound
    · rw [if_neg hc]
      by_cases hg : u < load + a
      · have hgrew : greedyGo u bins load (a :: rest) = greedyGo u (bins + 1) a rest := by
          simp only [greedyGo]
          rw [if_pos hg]
        apply ih hrest n (bins + 1) (cum + a) a ha
        · left; omega
        · rw [← hgrew]; exact hbound
      · have hgrew : greedyGo u bins load (a :: rest) = greedyGo u bins (load + a) rest := by
          simp only [greedyGo]
          rw [if_neg hg]
        apply ih hrest n bins (cum + a) (load + a) (by linarith)
        · rcases hinv with h | ⟨heq, hcl⟩
          · left; exact h
          · right; exact ⟨heq, by linarith⟩
        · rw [← hgrew]; exact hbound

/-! ### Claim C3 -/

/-- C3: if some permutation of the committed (non-negative) lengths packs
greedily into no more than `⌊orderedTotalLength/unitSpoolLength⌋` bins of
capacity `unitSpoolLength`, the permutation-search loop reports success
for that diameter. -/
theorem c3_arrangement_complete (d u o : ℚ) (segs p : List ℚ)
    (hu : UNIT_WIRE_LENGTH d = some u) (ho : ORDERED_WIRE_LENGTH d = some o)
    (hnn : ∀ x ∈ segs, 0 ≤ x) (hp : segs.Perm p)
    (hbound : (greedyBins u p : ℤ) ≤ ⌊o / u⌋) :
    arrangementFound d segs = some true := by
  have hval : validateGo u o 0 0 p = true := by
    apply validateGo_of_greedy u o p
      (fun x hx => hnn x (hp.mem_iff.mpr hx)) 0 1 0 0 le_rfl
      (Or.inr ⟨rfl, le_rfl⟩)
    have h1 := Int.le_floor.mp hbound
    exact_mod_cast h1
  unfold arrangementFound
  rw [hu, ho]
  show some (segs.permutations.any fun q => (validate_arangement d q).getD false) =
    some true
  refine congrArg some ?_
  rw [List.any_eq_true]
  refine ⟨p, List.mem_permutations.mpr hp.symm, ?_⟩
  unfold validate_arangement
  rw [hu, ho]
  show (some (validateGo u o 0 0 p)).getD false = true
  rw [hval]
  rfl

theorem unit_half : UNIT_WIRE_LENGTH 0.5 = some 300 := by
  unfold UNIT_WIRE_LENGTH
  rw [if_pos rfl]

theorem ordered_half : ORDERED_WIRE_LENGTH 0.5 = some 1500 := by
  unfold ORDERED_WIRE_LENGTH
  rw [if_pos rfl]
  norm_num

/-- C3 witness: two pieces of lengths 100 and 200 for diameter 0.5 pack
into one 300 mm spool, and the search loop reports success. -/
theorem c3_arrangement_complete_witness :
    arrangementFound 0.5 [100, 200] = some true := by
  apply c3_arrangement_complete 0.5 300 1500 [100, 200] [100, 200]
  · exact unit_half
  · exact ordered_half
  · intro x hx
    simp at hx
    rcases hx with rfl | rfl <;> norm_num
  · exact List.Perm.refl _
  · have hfl : ⌊(1500 : ℚ) / 300⌋ = 5 := by norm_num
    have hgb : greedyBins 300 [100, 200] = 1 := by
      norm_num [greedyBins, greedyGo]
    rw [hfl, hgb]
    norm_num

/-! ### Claim C5 -/

/-- C5 (code bug): a single piece of length 400 exceeds the 300 mm spool
for diameter 0.5, so the spec says every permutation must fail; but the
code drops the overflowing piece without consuming capacity and both the
validator and the search loop report success. -/
theorem c5_oversized_accepted :
    UNIT_WIRE_LENGTH 0.5 = some 300 ∧ (300 : ℚ) < 400 ∧
    validate_arangement 0.5 [400] = some true ∧
    arrangementFound 0.5 [400] = some true := by
  have hval : validateGo 300 1500 0 0 [400] = true := by
    norm_num [validateGo]
  refine ⟨unit_half, by norm_num, ?_, ?_⟩
  · unfold validate_arangement
    rw [unit_half, ordered_half]
    show some (validateGo 300 1500 0 0 [400]) = some true
    rw [hval]
  · unfold arrangementFound
    rw [unit_half, ordered_half]
    show some (([(400 : ℚ)].permutations).any
      fun p => (validate_arangement 0.5 p).getD false) = some true
    refine congrArg some ?_
    rw [List.any_eq_true]
    refine ⟨[400], List.mem_permutations.mpr (List.Perm.refl _), ?_⟩
    unfold validate_arangement
    rw [unit_half, ordered_half]
    show (some (validateGo 300 1500 0 0 [400])).getD false = true
    rw [hval]
    rfl

/-! ### Claim C10 -/

/-- C10: in the validator loop a piece that would overflow the current
spool opens a new spool with the running sum reset to 0, and the piece
itself is never added to any running sum: the continuation is the same
for any overflowing piece, whatever its length. -/
theorem c10_overflow_discards (u o : ℚ) (n : ℕ) (cum a : ℚ) (rest : List ℚ)
    (h : u < cum + a) :
    validateGo u o n cum (a :: rest) =
      (if o / u < ((n + 1 : ℕ) : ℚ) then false else validateGo u o (n + 1) 0 rest) ∧
    ∀ b, u < cum + b →
      validateGo u o n cum (b :: rest) = validateGo u o n cum (a :: rest) := by
  constructor
  · simp only [validateGo]
    rw [if_pos h]
  · intro b hb
    simp only [validateGo]
    rw [if_pos h, if_pos hb]

/-- C10 witness: with capacity 300, an overflowing first piece (400, or
any other overflowing length such as 999) is discarded and the loop
continues on a fresh spool. -/
theorem c10_overflow_discards_witness :
    (validateGo 300 1500 0 0 ((400 : ℚ) :: [50]) =
      (if (1500 : ℚ) / 300 < ((0 + 1 : ℕ) : ℚ) then false
       else validateGo 300 1500 (0 + 1) 0 [50]) ∧
    ∀ b, (300 : ℚ) < 0 + b →
      validateGo 300 1500 0 0 (b :: [50]) =
        validateGo 300 1500 0 0 ((400 : ℚ) :: [50])) :=
  c10_overflow_discards 300 1500 0 0 400 [50] (by norm_num)
